import Mathlib

/-!
Verification of the ZappaVault reconciliation scripts.

Shallow embedding of the Python sources:
  `update_library_durations.py`, `parse_zappa_list.py`, `zappa_comparison.py`,
  `extract_and_compare.py`, `find_missing_zappa.py`,
  `scripts/create_comprehensive_library.py`.

Strings are modelled through their character lists (`String.data`).  The
character classes of Python's regexes (`\w`, `\s`, `\d`, `str.lower`) are
embedded on their ASCII fragment; every non-ASCII character that actually
occurs in the sources (the en dash, em dash, minus sign and the arrow
marker) is carried verbatim.  Python dictionaries are modelled as
association lists in insertion order (keys unique in any dict the scripts
build); Python sets of strings are modelled as deduplicated lists.
-/

namespace ZappaVault

/-- ASCII fragment of Python's `str.isdigit` / regex `\d`. -/
def pyIsDigit (c : Char) : Bool :=
  48 ≤ c.toNat && c.toNat ≤ 57

/-- ASCII fragment of Python's regex class `\s`
(space, tab, newline, carriage return, vertical tab, form feed). -/
def pyIsSpace (c : Char) : Bool :=
  c.toNat = 32 || c.toNat = 9 || c.toNat = 10 || c.toNat = 13 || c.toNat = 11 || c.toNat = 12

/-- ASCII fragment of Python's regex class `\w` (letters, digits, underscore). -/
def pyIsWord (c : Char) : Bool :=
  (97 ≤ c.toNat && c.toNat ≤ 122) || (65 ≤ c.toNat && c.toNat ≤ 90) ||
    (48 ≤ c.toNat && c.toNat ≤ 57) || c.toNat = 95

/-- ASCII fragment of Python's `str.lower` applied to one character. -/
def pyToLower (c : Char) : Char :=
  if h : 65 ≤ c.toNat ∧ c.toNat ≤ 90 then
    Char.ofNatAux (c.toNat + 32) (Or.inl (by omega))
  else c

theorem toNat_ofNatAux (n : Nat) (h : n.isValidChar) : (Char.ofNatAux n h).toNat = n := by
  simp [Char.ofNatAux, Char.toNat, UInt32.toNat, BitVec.toNat_ofNatLt]

theorem pyToLower_eq_self (c : Char) (h : ¬ (65 ≤ c.toNat ∧ c.toNat ≤ 90)) :
    pyToLower c = c := by
  unfold pyToLower
  exact dif_neg h

theorem toNat_pyToLower (c : Char) :
    (pyToLower c).toNat = if 65 ≤ c.toNat ∧ c.toNat ≤ 90 then c.toNat + 32 else c.toNat := by
  by_cases h : 65 ≤ c.toNat ∧ c.toNat ≤ 90
  · rw [if_pos h]
    unfold pyToLower
    rw [dif_pos h, toNat_ofNatAux]
  · rw [if_neg h, pyToLower_eq_self c h]

theorem pyToLower_idem (c : Char) : pyToLower (pyToLower c) = pyToLower c := by
  by_cases h : 65 ≤ c.toNat ∧ c.toNat ≤ 90
  · have h2 : (pyToLower c).toNat = c.toNat + 32 := by
      rw [toNat_pyToLower, if_pos h]
    apply pyToLower_eq_self
    omega
  · rw [pyToLower_eq_self c h]
    exact pyToLower_eq_self c h

/-- Python `s.lower()` on a character list (ASCII fragment). -/
def pyLowerL (l : List Char) : List Char := l.map pyToLower

/-- Python `s.strip()` on a character list: drop whitespace at both ends. -/
def pyStripL (l : List Char) : List Char :=
  List.rdropWhile pyIsSpace (l.dropWhile pyIsSpace)

/-- Collapse of every whitespace run into one space:
Python `re.sub(r"\s+", " ", s)`.  The single space of a run is emitted at
the run's last character, which keeps the recursion structural. -/
def collapseWs : List Char → List Char
  | [] => []
  | [c] => if pyIsSpace c then [' '] else [c]
  | c :: d :: cs =>
    if pyIsSpace c then
      if pyIsSpace d then collapseWs (d :: cs)
      else ' ' :: collapseWs (d :: cs)
    else c :: collapseWs (d :: cs)

theorem dropWhile_eq_self_of_head (p : Char → Bool) (l : List Char)
    (h : ∀ c, l.head? = some c → p c = false) : l.dropWhile p = l := by
  cases l with
  | nil => rfl
  | cons a t => simp [List.dropWhile_cons, h a rfl]

theorem head_of_front {l₁ l₂ : List Char} {c : Char} (h : l₁ <+: l₂)
    (hc : l₁.head? = some c) : l₂.head? = some c := by
  obtain ⟨t, rfl⟩ := h
  rw [List.head?_append, hc]
  rfl

theorem head_dropWhile_false (p : Char → Bool) (l : List Char) (c : Char)
    (hc : (l.dropWhile p).head? = some c) : p c = false := by
  have h := List.head?_dropWhile_not p l
  rw [hc] at h
  exact h

theorem pyStripL_idem (l : List Char) : pyStripL (pyStripL l) = pyStripL l := by
  unfold pyStripL
  have hpre := List.rdropWhile_prefix pyIsSpace (l.dropWhile pyIsSpace)
  have h1 : (List.rdropWhile pyIsSpace (l.dropWhile pyIsSpace)).dropWhile pyIsSpace =
      List.rdropWhile pyIsSpace (l.dropWhile pyIsSpace) := by
    apply dropWhile_eq_self_of_head
    intro c hc
    exact head_dropWhile_false pyIsSpace l c (head_of_front hpre hc)
  rw [h1, List.rdropWhile_idempotent]

theorem pyStripL_infix_self (l : List Char) : pyStripL l <:+: l := by
  unfold pyStripL
  have hpre := List.rdropWhile_prefix pyIsSpace (l.dropWhile pyIsSpace)
  have hsuf := List.dropWhile_suffix (l := l) pyIsSpace
  have h1 := List.IsPrefix.isInfix hpre
  have h2 := List.IsSuffix.isInfix hsuf
  exact List.IsInfix.trans h1 h2

theorem mem_pyStripL {l : List Char} {x : Char} (hx : x ∈ pyStripL l) : x ∈ l :=
  ((pyStripL_infix_self l).sublist).subset hx

theorem head_collapseWs_cons_not_ws (d : Char) (cs : List Char)
    (hd : pyIsSpace d = false) : (collapseWs (d :: cs)).head? = some d := by
  cases cs with
  | nil =>
    rw [collapseWs, if_neg (by simp [hd])]
    rfl
  | cons e t =>
    rw [collapseWs, if_neg (by simp [hd])]
    rfl

theorem mem_collapseWs {l : List Char} {x : Char} (hx : x ∈ collapseWs l) :
    x ∈ l ∨ x = ' ' := by
  induction l using collapseWs.induct with
  | case1 =>
    rw [collapseWs] at hx
    simp at hx
  | case2 c hc =>
    rw [collapseWs, if_pos hc] at hx
    right
    simpa using hx
  | case3 c hc =>
    rw [collapseWs, if_neg hc] at hx
    left
    exact hx
  | case4 c d cs hc hd ih =>
    rw [collapseWs, if_pos hc, if_pos hd] at hx
    rcases ih hx with h | h
    · left
      exact List.mem_cons_of_mem c h
    · right
      exact h
  | case5 c d cs hc hd ih =>
    rw [collapseWs, if_pos hc, if_neg hd] at hx
    rcases List.mem_cons.mp hx with h | h
    · right
      exact h
    · rcases ih h with h2 | h2
      · left
        exact List.mem_cons_of_mem c h2
      · right
        exact h2
  | case6 c d cs hc ih =>
    rw [collapseWs, if_neg hc] at hx
    rcases List.mem_cons.mp hx with h | h
    · left
      rw [h]
      exact List.mem_cons_self c _
    · rcases ih h with h2 | h2
      · left
        exact List.mem_cons_of_mem c h2
      · right
        exact h2

/-- Shape of the output of `collapseWs`: every whitespace character is a
plain space and no two adjacent characters are both whitespace. -/
def wsChain (l : List Char) : Prop :=
  (∀ c ∈ l, pyIsSpace c = true → c = ' ') ∧
    l.Chain' (fun a b => ¬(pyIsSpace a = true ∧ pyIsSpace b = true))

theorem wsChain_collapseWs (l : List Char) : wsChain (collapseWs l) := by
  induction l using collapseWs.induct with
  | case1 =>
    rw [collapseWs]
    exact ⟨by simp, by simp⟩
  | case2 c hc =>
    rw [collapseWs, if_pos hc]
    exact ⟨by intro x hx _; simpa using hx, by simp⟩
  | case3 c hc =>
    rw [collapseWs, if_neg hc]
    refine ⟨?_, by simp⟩
    intro x hx hxs
    have hxc : x = c := by simpa using hx
    rw [hxc] at hxs
    exact absurd hxs (by simpa using hc)
  | case4 c d cs hc hd ih =>
    rw [collapseWs, if_pos hc, if_pos hd]
    exact ih
  | case5 c d cs hc hd ih =>
    rw [collapseWs, if_pos hc, if_neg hd]
    constructor
    · intro x hx hxs
      rcases List.mem_cons.mp hx with h | h
      · exact h
      · exact ih.1 x h hxs
    · rw [List.chain'_cons']
      refine ⟨?_, ih.2⟩
      intro y hy
      rw [head_collapseWs_cons_not_ws d cs (by simpa using hd)] at hy
      have hyd : d = y := by simpa using hy
      rw [← hyd]
      intro hpair
      exact absurd hpair.2 (by simpa using hd)
  | case6 c d cs hc ih =>
    rw [collapseWs, if_neg hc]
    constructor
    · intro x hx hxs
      rcases List.mem_cons.mp hx with h | h
      · rw [h] at hxs
        exact absurd hxs (by simpa using hc)
      · exact ih.1 x h hxs
    · rw [List.chain'_cons']
      refine ⟨?_, ih.2⟩
      intro y _
      intro hpair
      exact absurd hpair.1 (by simpa using hc)

theorem wsChain_mono {l l' : List Char} (h : wsChain l) (hi : l' <:+: l) :
    wsChain l' :=
  ⟨fun c hc => h.1 c (hi.sublist.subset hc), List.Chain'.infix h.2 hi⟩

theorem collapseWs_eq_self {l : List Char} (h : wsChain l) : collapseWs l = l := by
  induction l using collapseWs.induct with
  | case1 => rw [collapseWs]
  | case2 c hc =>
    rw [collapseWs, if_pos hc, h.1 c (List.mem_cons_self c []) hc]
  | case3 c hc =>
    rw [collapseWs, if_neg hc]
  | case4 c d cs hc hd ih =>
    exfalso
    have hrel := (List.chain'_cons'.mp h.2).1 d (by rw [List.head?_cons]; rfl)
    exact hrel ⟨hc, hd⟩
  | case5 c d cs hc hd ih =>
    rw [collapseWs, if_pos hc, if_neg hd]
    have hc' : c = ' ' := h.1 c (List.mem_cons_self _ _) hc
    have htail : wsChain (d :: cs) :=
      ⟨fun x hx => h.1 x (List.mem_cons_of_mem c hx), h.2.tail⟩
    rw [ih htail, hc']
  | case6 c d cs hc ih =>
    rw [collapseWs, if_neg hc]
    have htail : wsChain (d :: cs) :=
      ⟨fun x hx => h.1 x (List.mem_cons_of_mem c hx), h.2.tail⟩
    rw [ih htail]

theorem collapseWs_pyStripL_collapseWs (l : List Char) :
    collapseWs (pyStripL (collapseWs l)) = pyStripL (collapseWs l) :=
  collapseWs_eq_self (wsChain_mono (wsChain_collapseWs l) (pyStripL_infix_self _))

theorem pyStripL_collapseWs_idem (l : List Char) :
    pyStripL (collapseWs (pyStripL (collapseWs l))) = pyStripL (collapseWs l) := by
  rw [collapseWs_pyStripL_collapseWs, pyStripL_idem]

/-- Python `a in b` on character lists: `a` occurs contiguously inside `b`. -/
def pyInfixB (a : List Char) : List Char → Bool
  | [] => a.isEmpty
  | c :: cs => a.isPrefixOf (c :: cs) || pyInfixB a cs

/-- Python `s.split()` (no separator): maximal runs of non-whitespace. -/
def pySplitWsL : List Char → List (List Char)
  | [] => []
  | [c] => if pyIsSpace c then [] else [[c]]
  | c :: d :: cs =>
    if pyIsSpace c then pySplitWsL (d :: cs)
    else
      if pyIsSpace d then [c] :: pySplitWsL (d :: cs)
      else
        match pySplitWsL (d :: cs) with
        | [] => [[c]]
        | w :: ws => (c :: w) :: ws

/-- Python `s.split('/')` on a character list. -/
def splitSlash : List Char → List (List Char)
  | [] => [[]]
  | c :: cs =>
    if c = '/' then [] :: splitSlash cs
    else
      match splitSlash cs with
      | [] => [[c]]
      | h :: t => (c :: h) :: t

/-- Python `text.split('\n')` on a character list. -/
def splitNl : List Char → List (List Char)
  | [] => [[]]
  | c :: cs =>
    if c = '\n' then [] :: splitNl cs
    else
      match splitNl cs with
      | [] => [[c]]
      | h :: t => (c :: h) :: t

theorem splitNl_eq_single {l : List Char} (h : '\n' ∉ l) : splitNl l = [l] := by
  induction l with
  | nil => rfl
  | cons c cs ih =>
    have hc : ¬ c = '\n' := fun hc => h (hc ▸ List.mem_cons_self c cs)
    rw [splitNl, if_neg hc, ih (fun hm => h (List.mem_cons_of_mem c hm))]

/-- Character list of the literal `Bookmark`. -/
def bookmarkChars : List Char := "Bookmark".data

/-- Title segment cut by the lazy group `(.+?)(?:Bookmark|$)`: the
characters up to the first occurrence of `Bookmark`, else everything (the
caller has already consumed the first character, so the occurrence search
starts at position one of the group). -/
def takeUntilBookmark : List Char → List Char
  | [] => []
  | c :: cs =>
    if bookmarkChars.isPrefixOf (c :: cs) then []
    else c :: takeUntilBookmark cs

/-- Embedding of the extractor regex `^(\d{4})\s*–\s*(.+?)(?:Bookmark|$)`
applied by `re.match` to a line, combined with the `.strip()` the callers
apply to the title group: the year and the stripped title of a matching
line.  When everything after the dash is whitespace the regex still matches
(the greedy `\s*` backtracks one character into the lazy dot), and the
stripped title is empty. -/
def parseLine (l : List Char) : Option (String × String) :=
  match l with
  | c0 :: c1 :: c2 :: c3 :: rest =>
    if pyIsDigit c0 && pyIsDigit c1 && pyIsDigit c2 && pyIsDigit c3 then
      match rest.dropWhile pyIsSpace with
      | d :: rest2 =>
        if d = '–' then
          if rest2.isEmpty then none
          else
            match rest2.dropWhile pyIsSpace with
            | [] => some (⟨[c0, c1, c2, c3]⟩, "")
            | e :: rest3 =>
              some (⟨[c0, c1, c2, c3]⟩, ⟨pyStripL (e :: takeUntilBookmark rest3)⟩)
        else none
      | [] => none
    else none
  | _ => none

/-- First-occurrence deduplication: every string is kept exactly at the
position of its first occurrence. -/
def firstDedup : List String → List String
  | [] => []
  | k :: ks => k :: (firstDedup ks).filter (fun x => x != k)

theorem firstDedup_nodup (l : List String) : (firstDedup l).Nodup := by
  induction l with
  | nil => exact List.nodup_nil
  | cons a t ih =>
    rw [firstDedup]
    rw [List.nodup_cons]
    constructor
    · intro hmem
      have hx := List.of_mem_filter hmem
      simp at hx
    · exact List.Nodup.filter _ ih

theorem firstDedup_filter (q : String → Bool) (l : List String) :
    firstDedup (l.filter q) = (firstDedup l).filter q := by
  induction l with
  | nil => rfl
  | cons a t ih =>
    by_cases hq : q a = true
    · rw [List.filter_cons_of_pos hq, firstDedup, firstDedup,
        List.filter_cons_of_pos hq, ih]
      congr 1
      rw [List.filter_filter, List.filter_filter]
      apply List.filter_congr
      intro x _
      exact Bool.and_comm _ _
    · rw [List.filter_cons_of_neg hq, firstDedup, ih,
        List.filter_cons_of_neg hq, List.filter_filter]
      apply List.filter_congr
      intro x _
      by_cases hx : x = a
      · rw [hx]
        simp [hq]
      · simp [hx]

/-- Python idiom `if not s.startswith('/'): s = '/' + s`, shared by all three
path normalizers of the repository. -/
def ensureSlash (cs : List Char) : List Char :=
  if cs.head? = some '/' then cs else '/' :: cs

theorem head_ensureSlash (cs : List Char) : (ensureSlash cs).head? = some '/' := by
  unfold ensureSlash
  split
  · assumption
  · rfl

theorem ensureSlash_ensureSlash (cs : List Char) :
    ensureSlash (ensureSlash cs) = ensureSlash cs := by
  show (if (ensureSlash cs).head? = some '/' then _ else _) = _
  rw [head_ensureSlash cs, if_pos rfl]

theorem head_ite_ensureSlash (b : Prop) [Decidable b] (x y : List Char) :
    (if b then String.mk (ensureSlash x) else String.mk (ensureSlash y)).data.head? =
      some '/' := by
  split
  · exact head_ensureSlash x
  · exact head_ensureSlash y

/-- Python `s.replace('\\', '/')` on one character. -/
def slashFix (c : Char) : Char := if c = '\\' then '/' else c

theorem slashFix_slashFix (c : Char) : slashFix (slashFix c) = slashFix c := by
  by_cases h : c = '\\' <;> simp [slashFix, h]

namespace UpdateLibraryDurations

/-- Embedding of `update_library_durations.normalize_path`:
replace backslashes with forward slashes, then force a leading slash. -/
def normalize_path (p : String) : String :=
  ⟨ensureSlash (p.data.map slashFix)⟩

end UpdateLibraryDurations

namespace CreateComprehensiveLibrary

/-- First index (if any) at which `pat` occurs inside `l`:
Python `l.find(pat)` restricted to a found/not-found answer with position. -/
def findIdx : List Char → List Char → Option Nat
  | _, [] => none
  | pat, c :: cs =>
    if pat.isPrefixOf (c :: cs) then some 0
    else (findIdx pat cs).map (· + 1)

/-- Embedding of `create_comprehensive_library.normalize_path_for_lookup`:
slash normalization, Windows-drive / Dropbox-root trimming, forced leading
slash, and trimming of the `/Apps/ZappaVault/ZappaLibrary` root. -/
def normalize_path_for_lookup (p : String) : String :=
  let cs0 := p.data.map slashFix
  let cs1 :=
    if ['C', ':', '/'].isPrefixOf cs0 || ['c', ':', '/'].isPrefixOf cs0 then
      match findIdx "/dropbox/".data (pyLowerL cs0) with
      | some i => cs0.drop (i + 8)
      | none => cs0
    else cs0
  let cs2 := ensureSlash cs1
  let root := "/Apps/ZappaVault/ZappaLibrary".data
  if root.isPrefixOf cs2 then ⟨ensureSlash (cs2.drop root.length)⟩ else ⟨cs2⟩

end CreateComprehensiveLibrary

/-- C8 -- every output of the duration merger's path normalizer, and of the
comprehensive-library path normalizer, is a string whose first character is
`'/'`. -/
theorem c8_normalize_path_leading_slash (p : String) :
    (UpdateLibraryDurations.normalize_path p).data.head? = some '/' ∧
      (CreateComprehensiveLibrary.normalize_path_for_lookup p).data.head? = some '/' := by
  constructor
  · exact head_ensureSlash _
  · simp only [CreateComprehensiveLibrary.normalize_path_for_lookup]
    exact head_ite_ensureSlash _ _ _

/-- C9 -- the duration merger's path normalizer is idempotent. -/
theorem c9_normalize_path_idempotent (p : String) :
    UpdateLibraryDurations.normalize_path (UpdateLibraryDurations.normalize_path p) =
      UpdateLibraryDurations.normalize_path p := by
  show String.mk (ensureSlash ((ensureSlash (p.data.map slashFix)).map slashFix)) = _
  have hn : (p.data.map slashFix).map slashFix = p.data.map slashFix := by
    rw [List.map_map]
    apply List.map_congr_left
    intro c _
    exact slashFix_slashFix c
  have hes : (ensureSlash (p.data.map slashFix)).map slashFix =
      ensureSlash (p.data.map slashFix) := by
    unfold ensureSlash
    split
    · exact hn
    · show slashFix '/' :: (p.data.map slashFix).map slashFix = _
      rw [hn]
      rfl
  rw [hes, ensureSlash_ensureSlash]
  rfl

namespace UpdateLibraryDurations

/-- DurationIndex: the Python dict mapping path keys to milliseconds, as an
association list in insertion order (dict keys are unique). -/
abbrev DurationIndex := List (String × Int)

/-- Python `k in durations` paired with `durations[k]`: the value stored
under `k`, if any. -/
def lookupD (d : DurationIndex) (k : String) : Option Int :=
  (d.find? (fun pr => pr.1 == k)).map Prod.snd

/-- Python `s.split('/')[-1] if '/' in s else s`. -/
def lastSegOf (s : String) : String :=
  if s.data.contains '/' then ⟨(splitSlash s.data).getLastD []⟩ else s

/-- Embedding of `update_library_durations.find_duration`: exact lookup on
the normalized path, then lowercase lookup, then a linear scan comparing
final path segments case-insensitively — the scan runs only when the query's
final segment is non-empty (`if file_name:`) — else 0. -/
def find_duration (p : String) (durations : DurationIndex) : Int :=
  let normalized := normalize_path p
  match lookupD durations normalized with
  | some v => v
  | none =>
    match lookupD durations ⟨pyLowerL normalized.data⟩ with
    | some v => v
    | none =>
      let file_name := lastSegOf normalized
      if file_name ≠ "" then
        match durations.find?
            (fun pr => pyLowerL (lastSegOf pr.1).data == pyLowerL file_name.data) with
        | some pr => pr.2
        | none => 0
      else 0

/-- The lookup contract exactly as claim C1 words it, with no guard on an
empty final segment: exact canonical-key hit, else lowercase-key hit, else
the first index entry whose final path segment matches the query's final
segment case-insensitively, else 0.  Written from the spec to be compared
with `find_duration`. -/
def claimFindDuration (p : String) (durations : DurationIndex) : Int :=
  let n := normalize_path p
  (((lookupD durations n).orElse
      (fun _ => lookupD durations ⟨pyLowerL n.data⟩)).orElse
    (fun _ => (durations.find?
        (fun pr => pyLowerL (lastSegOf pr.1).data == pyLowerL (lastSegOf n).data)).map
      Prod.snd)).getD 0

/-- The amended contract: as `claimFindDuration`, but the filename-suffix
scan applies only when the query's final path segment is non-empty. -/
def claimFindDurationGuarded (p : String) (durations : DurationIndex) : Int :=
  let n := normalize_path p
  (((lookupD durations n).orElse
      (fun _ => lookupD durations ⟨pyLowerL n.data⟩)).orElse
    (fun _ =>
      if lastSegOf n = "" then none
      else (durations.find?
          (fun pr => pyLowerL (lastSegOf pr.1).data == pyLowerL (lastSegOf n).data)).map
        Prod.snd)).getD 0

end UpdateLibraryDurations

/-- C1, counterexample -- for the track path "a/" (normalized "/a/", whose
final path segment is empty) and the index holding 5 under the key "/b/"
(final segment likewise empty), the claimed contract finds the
segment-matching entry and yields 5, but `find_duration` skips the scan for
an empty segment and returns 0. -/
theorem c1_counterexample :
    UpdateLibraryDurations.find_duration "a/" [("/b/", 5)] = 0 ∧
      UpdateLibraryDurations.claimFindDuration "a/" [("/b/", 5)] = 5 := by
  constructor
  · rfl
  · rfl

/-- C1, amended -- `find_duration` realizes the claimed lookup order (exact
canonical key, then lowercase canonical key, then first case-insensitive
final-segment match, then 0) with the scan additionally guarded to run only
when the query's final path segment is non-empty. -/
theorem c1_find_duration_contract (p : String)
    (d : UpdateLibraryDurations.DurationIndex) :
    UpdateLibraryDurations.find_duration p d =
      UpdateLibraryDurations.claimFindDurationGuarded p d := by
  unfold UpdateLibraryDurations.find_duration UpdateLibraryDurations.claimFindDurationGuarded
  cases h1 : UpdateLibraryDurations.lookupD d (UpdateLibraryDurations.normalize_path p) with
  | some v => simp [h1, Option.orElse]
  | none =>
    cases h2 : UpdateLibraryDurations.lookupD d
        ⟨pyLowerL (UpdateLibraryDurations.normalize_path p).data⟩ with
    | some v => simp [h1, h2, Option.orElse]
    | none =>
      by_cases h3 : UpdateLibraryDurations.lastSegOf (UpdateLibraryDurations.normalize_path p) = ""
      · simp [h1, h2, h3, Option.orElse]
      · cases h4 : d.find? (fun pr =>
            pyLowerL (UpdateLibraryDurations.lastSegOf pr.1).data ==
              pyLowerL (UpdateLibraryDurations.lastSegOf
                (UpdateLibraryDurations.normalize_path p)).data) with
        | some pr => simp [h1, h2, h3, h4, Option.orElse]
        | none => simp [h1, h2, h3, h4, Option.orElse]

namespace UpdateLibraryDurations

/-- Track record of `library.generated.json`: the fields the merge touches. -/
structure Track where
  filePath : String
  durationMs : Int
  deriving DecidableEq

/-- Album record: its tracks and the `totalDurationMs` aggregate. -/
structure Album where
  tracks : List Track
  totalDurationMs : Int
  deriving DecidableEq

/-- Library record: its albums and the `totalDurationMs` aggregate. -/
structure Library where
  albums : List Album
  totalDurationMs : Int
  deriving DecidableEq

/-- Inner loop body of `update_library_durations`: a track's `durationMs` is
overwritten with `find_duration` of its `filePath` only when the path is
non-empty and the found duration is positive. -/
def update_track (d : DurationIndex) (t : Track) : Track :=
  if t.filePath ≠ "" ∧ 0 < find_duration t.filePath d then
    { t with durationMs := find_duration t.filePath d }
  else t

/-- Contribution of one track to `album_duration` in the merge loop. -/
def track_contrib (d : DurationIndex) (t : Track) : Int :=
  if t.filePath ≠ "" ∧ 0 < find_duration t.filePath d then find_duration t.filePath d
  else 0

/-- Accumulated `album_duration` of the merge loop. -/
def album_sum (d : DurationIndex) (a : Album) : Int :=
  (a.tracks.map (track_contrib d)).sum

/-- Album-level loop body: tracks are updated, and `totalDurationMs` is
overwritten only when the accumulated album duration is positive. -/
def update_album (d : DurationIndex) (a : Album) : Album :=
  { tracks := a.tracks.map (update_track d),
    totalDurationMs := if 0 < album_sum d a then album_sum d a else a.totalDurationMs }

/-- Embedding of `update_library_durations`: every album is processed and the
library's `totalDurationMs` is recomputed from the positive album sums. -/
def update_library_durations (d : DurationIndex) (lib : Library) : Library :=
  { albums := lib.albums.map (update_album d),
    totalDurationMs :=
      (lib.albums.map (fun a => if 0 < album_sum d a then album_sum d a else 0)).sum }

theorem filePath_update_track (d : DurationIndex) (t : Track) :
    (update_track d t).filePath = t.filePath := by
  unfold update_track
  split <;> rfl

theorem update_track_idem (d : DurationIndex) (t : Track) :
    update_track d (update_track d t) = update_track d t := by
  by_cases h : t.filePath ≠ "" ∧ 0 < find_duration t.filePath d
  · have h1 : update_track d t = { t with durationMs := find_duration t.filePath d } := by
      unfold update_track
      rw [if_pos h]
    rw [h1]
    unfold update_track
    rw [if_pos h]
  · have h1 : update_track d t = t := by
      unfold update_track
      rw [if_neg h]
    rw [h1, h1]

theorem track_contrib_update_track (d : DurationIndex) (t : Track) :
    track_contrib d (update_track d t) = track_contrib d t := by
  unfold track_contrib
  rw [filePath_update_track]

theorem album_sum_update_album (d : DurationIndex) (a : Album) :
    album_sum d (update_album d a) = album_sum d a := by
  unfold album_sum update_album
  simp only [List.map_map]
  congr 1
  apply List.map_congr_left
  intro t _
  exact track_contrib_update_track d t

theorem update_album_idem (d : DurationIndex) (a : Album) :
    update_album d (update_album d a) = update_album d a := by
  have hs := album_sum_update_album d a
  have htracks : (update_album d (update_album d a)).tracks = (update_album d a).tracks := by
    show (a.tracks.map (update_track d)).map (update_track d) = a.tracks.map (update_track d)
    rw [List.map_map]
    apply List.map_congr_left
    intro t _
    exact update_track_idem d t
  have htotal : (update_album d (update_album d a)).totalDurationMs =
      (update_album d a).totalDurationMs := by
    show (if 0 < album_sum d (update_album d a) then album_sum d (update_album d a)
      else (update_album d a).totalDurationMs) = (update_album d a).totalDurationMs
    rw [hs]
    by_cases h : 0 < album_sum d a
    · rw [if_pos h]
      show album_sum d a = if 0 < album_sum d a then album_sum d a else a.totalDurationMs
      rw [if_pos h]
    · rw [if_neg h]
  calc update_album d (update_album d a)
      = ⟨(update_album d (update_album d a)).tracks,
          (update_album d (update_album d a)).totalDurationMs⟩ := rfl
    _ = ⟨(update_album d a).tracks, (update_album d a).totalDurationMs⟩ := by
          rw [htracks, htotal]
    _ = update_album d a := rfl

end UpdateLibraryDurations

/-- C2 -- the duration merge is idempotent: running it twice against the same
duration index returns the same library value (hence byte-identical
serialized output), and the per-track update never overwrites a positive
`durationMs` with zero. -/
theorem c2_merge_idempotent_and_never_zeroes
    (d : UpdateLibraryDurations.DurationIndex) :
    (∀ lib, UpdateLibraryDurations.update_library_durations d
        (UpdateLibraryDurations.update_library_durations d lib) =
      UpdateLibraryDurations.update_library_durations d lib) ∧
    ∀ t : UpdateLibraryDurations.Track, 0 < t.durationMs →
      0 < (UpdateLibraryDurations.update_track d t).durationMs := by
  constructor
  · intro lib
    have halbums : (UpdateLibraryDurations.update_library_durations d
        (UpdateLibraryDurations.update_library_durations d lib)).albums =
        (UpdateLibraryDurations.update_library_durations d lib).albums := by
      show (lib.albums.map (UpdateLibraryDurations.update_album d)).map
          (UpdateLibraryDurations.update_album d) =
        lib.albums.map (UpdateLibraryDurations.update_album d)
      rw [List.map_map]
      apply List.map_congr_left
      intro a _
      exact UpdateLibraryDurations.update_album_idem d a
    have htotal : (UpdateLibraryDurations.update_library_durations d
        (UpdateLibraryDurations.update_library_durations d lib)).totalDurationMs =
        (UpdateLibraryDurations.update_library_durations d lib).totalDurationMs := by
      show ((lib.albums.map (UpdateLibraryDurations.update_album d)).map
          (fun a => if 0 < UpdateLibraryDurations.album_sum d a then
            UpdateLibraryDurations.album_sum d a else 0)).sum =
        (lib.albums.map (fun a => if 0 < UpdateLibraryDurations.album_sum d a then
          UpdateLibraryDurations.album_sum d a else 0)).sum
      rw [List.map_map]
      congr 1
      apply List.map_congr_left
      intro a _
      show (if 0 < UpdateLibraryDurations.album_sum d
          (UpdateLibraryDurations.update_album d a) then
        UpdateLibraryDurations.album_sum d (UpdateLibraryDurations.update_album d a)
        else 0) = _
      rw [UpdateLibraryDurations.album_sum_update_album]
    calc UpdateLibraryDurations.update_library_durations d
          (UpdateLibraryDurations.update_library_durations d lib)
        = ⟨(UpdateLibraryDurations.update_library_durations d
              (UpdateLibraryDurations.update_library_durations d lib)).albums,
            (UpdateLibraryDurations.update_library_durations d
              (UpdateLibraryDurations.update_library_durations d lib)).totalDurationMs⟩ := rfl
      _ = ⟨(UpdateLibraryDurations.update_library_durations d lib).albums,
            (UpdateLibraryDurations.update_library_durations d lib).totalDurationMs⟩ := by
            rw [halbums, htotal]
      _ = UpdateLibraryDurations.update_library_durations d lib := rfl
  · intro t ht
    unfold UpdateLibraryDurations.update_track
    split
    · rename_i h
      exact h.2
    · exact ht

/-- C2, witness -- the idempotence and the no-zero-overwrite conclusion at a
concrete index, library and track. -/
theorem c2_merge_idempotent_witness :
    (UpdateLibraryDurations.update_library_durations [("/a/x.mp3", 7)]
        (UpdateLibraryDurations.update_library_durations [("/a/x.mp3", 7)]
          ⟨[⟨[⟨"a/x.mp3", 0⟩, ⟨"", 3⟩], 0⟩], 0⟩) =
      UpdateLibraryDurations.update_library_durations [("/a/x.mp3", 7)]
        ⟨[⟨[⟨"a/x.mp3", 0⟩, ⟨"", 3⟩], 0⟩], 0⟩) ∧
    0 < (UpdateLibraryDurations.update_track [("/a/x.mp3", 7)] ⟨"", 3⟩).durationMs := by
  constructor
  · exact (c2_merge_idempotent_and_never_zeroes [("/a/x.mp3", 7)]).1
      ⟨[⟨[⟨"a/x.mp3", 0⟩, ⟨"", 3⟩], 0⟩], 0⟩
  · exact (c2_merge_idempotent_and_never_zeroes [("/a/x.mp3", 7)]).2 ⟨"", 3⟩ (by decide)

namespace ZappaComparison

/-- Dash class `[–—-]` (en dash, em dash, hyphen) of
`zappa_comparison.normalize_title`. -/
def isDashZc (c : Char) : Bool := c = '–' || c = '—' || c = '-'

/-- Characters kept by `re.sub(r"[^\w\s'-]", ' ', title)`: word characters,
whitespace, the apostrophe and the hyphen. -/
def keepZc (c : Char) : Bool := pyIsWord c || pyIsSpace c || c = '\'' || c = '-'

/-- Embedding of `zappa_comparison.normalize_title`: lowercase, normalize
apostrophes (the source's character class holds two plain ASCII apostrophes,
so that substitution maps apostrophe to apostrophe), unify dashes to `'-'`,
replace every other special character with a space, collapse whitespace,
strip. -/
def normalize_title (s : String) : String :=
  let t1 := s.data.map pyToLower
  let t2 := t1.map (fun c => if c = '\'' then '\'' else c)
  let t3 := t2.map (fun c => if isDashZc c then '-' else c)
  let t4 := t3.map (fun c => if keepZc c then c else ' ')
  ⟨pyStripL (collapseWs t4)⟩

/-- Per-character composite of the four substitution passes of
`normalize_title`. -/
def zcChar (c : Char) : Char :=
  if keepZc (if isDashZc (pyToLower c) then '-' else pyToLower c) then
    (if isDashZc (pyToLower c) then '-' else pyToLower c)
  else ' '

theorem normalize_title_eq_map (s : String) :
    normalize_title s = ⟨pyStripL (collapseWs (s.data.map zcChar))⟩ := by
  show String.mk (pyStripL (collapseWs ((((s.data.map pyToLower).map
      (fun c => if c = '\'' then '\'' else c)).map
      (fun c => if isDashZc c then '-' else c)).map
      (fun c => if keepZc c then c else ' ')))) = _
  rw [List.map_map, List.map_map, List.map_map]
  apply congrArg String.mk
  apply congrArg pyStripL
  apply congrArg collapseWs
  apply List.map_congr_left
  intro c _
  simp only [Function.comp]
  unfold zcChar
  by_cases hq : pyToLower c = '\''
  · rw [if_pos hq, hq]
  · rw [if_neg hq]

theorem zcChar_space : zcChar ' ' = ' ' := by decide

theorem zcChar_stable (c : Char) : zcChar (zcChar c) = zcChar c := by
  by_cases hk : keepZc (if isDashZc (pyToLower c) then '-' else pyToLower c) = true
  · have h1 : zcChar c = if isDashZc (pyToLower c) then '-' else pyToLower c := by
      unfold zcChar
      rw [if_pos hk]
    rw [h1]
    by_cases hd : isDashZc (pyToLower c) = true
    · rw [if_pos hd]
      decide
    · rw [if_neg hd]
      rw [if_neg hd] at hk
      unfold zcChar
      rw [pyToLower_idem]
      rw [if_neg hd, if_pos hk]
  · have h1 : zcChar c = ' ' := by
      unfold zcChar
      rw [if_neg hk]
    rw [h1]
    exact zcChar_space

end ZappaComparison

namespace ExtractAndCompare

/-- Dash class `[–—-]` of the year-stripping pass. -/
def isYearDash (c : Char) : Bool := c = '–' || c = '—' || c = '-'

/-- Python `re.sub(r'^\d{4}\s*[–—-]\s*', '', title)`: remove one leading
group of four digits, optional whitespace, a dash and optional whitespace. -/
def stripYearLead (l : List Char) : List Char :=
  match l with
  | c0 :: c1 :: c2 :: c3 :: rest =>
    if pyIsDigit c0 && pyIsDigit c1 && pyIsDigit c2 && pyIsDigit c3 then
      match rest.dropWhile pyIsSpace with
      | d :: rest2 => if isYearDash d then rest2.dropWhile pyIsSpace else l
      | [] => l
    else l
  | _ => l

/-- Characters mapped to `'/'` by `re.sub(r'[–—/−]', '/', title)`: en dash,
em dash, slash and the Unicode minus sign. -/
def isDashSlash (c : Char) : Bool := c = '–' || c = '—' || c = '/' || c = '−'

/-- Characters kept by `re.sub(r'[^\w\s\'-]', '', title)`. -/
def keepEac (c : Char) : Bool := pyIsWord c || pyIsSpace c || c = '\'' || c = '-'

/-- Embedding of `extract_and_compare.normalize_title`: strip one leading
year-dash group, lowercase, normalize apostrophes (a no-op on the source's
ASCII apostrophe class), map dashes and slashes to `'/'`, then `'/'` to a
space, delete the remaining special characters, collapse whitespace, strip. -/
def normalize_title (s : String) : String :=
  let t0 := stripYearLead s.data
  let t1 := t0.map pyToLower
  let t2 := t1.map (fun c => if c = '\'' then '\'' else c)
  let t3 := t2.map (fun c => if isDashSlash c then '/' else c)
  let t4 := t3.map (fun c => if c = '/' then ' ' else c)
  let t5 := t4.filter keepEac
  ⟨pyStripL (collapseWs t5)⟩

end ExtractAndCompare

/-- C5, counterexample -- the title normalizer of `extract_and_compare` is
not idempotent: on "!2020-abc" one pass deletes the '!' and yields
"2020-abc", and a second pass then strips the freshly exposed year-dash
group, yielding "abc". -/
theorem c5_counterexample :
    ExtractAndCompare.normalize_title (ExtractAndCompare.normalize_title "!2020-abc") ≠
        ExtractAndCompare.normalize_title "!2020-abc" ∧
      ExtractAndCompare.normalize_title "!2020-abc" = "2020-abc" ∧
      ExtractAndCompare.normalize_title (ExtractAndCompare.normalize_title "!2020-abc") =
        "abc" := by
  refine ⟨?_, by decide, by decide⟩
  decide

/-- C5, amended -- the title normalizer of `zappa_comparison` (which has no
year-prefix stripping pass) is idempotent on every input string. -/
theorem c5_normalize_title_idempotent (s : String) :
    ZappaComparison.normalize_title (ZappaComparison.normalize_title s) =
      ZappaComparison.normalize_title s := by
  rw [ZappaComparison.normalize_title_eq_map s,
    ZappaComparison.normalize_title_eq_map ⟨pyStripL (collapseWs
      (s.data.map ZappaComparison.zcChar))⟩]
  have hmem : ∀ x ∈ pyStripL (collapseWs (s.data.map ZappaComparison.zcChar)),
      ZappaComparison.zcChar x = x := by
    intro x hx
    rcases mem_collapseWs (mem_pyStripL hx) with h | h
    · rcases List.mem_map.mp h with ⟨y, _, rfl⟩
      exact ZappaComparison.zcChar_stable y
    · rw [h]
      exact ZappaComparison.zcChar_space
  have hmap : (pyStripL (collapseWs (s.data.map ZappaComparison.zcChar))).map
      ZappaComparison.zcChar = pyStripL (collapseWs (s.data.map ZappaComparison.zcChar)) := by
    conv_rhs => rw [← List.map_id (pyStripL (collapseWs (s.data.map ZappaComparison.zcChar)))]
    exact List.map_congr_left hmem
  show String.mk (pyStripL (collapseWs ((pyStripL (collapseWs
    (s.data.map ZappaComparison.zcChar))).map ZappaComparison.zcChar))) = _
  rw [hmap, pyStripL_collapseWs_idem]

/-- Size of the intersection of two Python word sets, both given as
deduplicated lists: Python `len(a & b)`. -/
def commonCount (a b : List String) : Nat :=
  (a.filter (fun w => b.contains w)).length

theorem commonCount_le_length (a b : List String) : commonCount a b ≤ a.length :=
  List.length_filter_le _ a

namespace ParseZappaList

/-- Characters kept by `re.sub(r"[^\w\s']", ' ', s)`: word characters,
whitespace and the apostrophe (no hyphen in this variant). -/
def keepPz (c : Char) : Bool := pyIsWord c || pyIsSpace c || c = '\''

/-- Embedding of `parse_zappa_list.normalize`: lowercase, replace every
character outside the kept class with a space, collapse whitespace, strip. -/
def normalize (s : String) : String :=
  let s1 := s.data.map pyToLower
  let s2 := s1.map (fun c => if keepPz c then c else ' ')
  ⟨pyStripL (collapseWs s2)⟩

/-- Python `set(s.split())` as a deduplicated word list. -/
def wordSet (s : String) : List String :=
  ((pySplitWsL s.data).map (fun w => (⟨w⟩ : String))).dedup

/-- Match tiers of the tiered lookup, labelling which strategy produced the
returned title. -/
inductive Tier where
  | exactKey
  | normalizedExact
  | substring
  | wordOverlap
  deriving DecidableEq

/-- Embedding of `parse_zappa_list.find_match` with the winning tier made
explicit: raw key hit, then normalized equality, then substring containment
with both normalized lengths above 5, then word overlap with bound
`len(common) >= max(2, len(target_words) * 0.7)`.  The float literal `0.7`
is modelled as the exact rational 7/10 (`10*common ≥ 7*|words|`), which
agrees with the source's floating-point comparison at every realistic
word-set size. -/
def find_match (target : String) (library : List String) : Option (Tier × String) :=
  if library.contains target then some (Tier.exactKey, target)
  else
    match library.find? (fun t => normalize t == normalize target) with
    | some t => some (Tier.normalizedExact, t)
    | none =>
      match library.find? (fun t =>
          (pyInfixB (normalize target).data (normalize t).data ||
            pyInfixB (normalize t).data (normalize target).data) &&
          (decide (5 < (normalize target).length) &&
            decide (5 < (normalize t).length))) with
      | some t => some (Tier.substring, t)
      | none =>
        if (wordSet (normalize target)).isEmpty then none
        else
          match library.find? (fun t =>
              !(wordSet (normalize t)).isEmpty &&
              (decide (2 ≤ commonCount (wordSet (normalize target))
                  (wordSet (normalize t))) &&
                decide (7 * (wordSet (normalize target)).length ≤
                  10 * commonCount (wordSet (normalize target))
                    (wordSet (normalize t))))) with
          | some t => some (Tier.wordOverlap, t)
          | none => none

end ParseZappaList

namespace ExtractAndCompare

/-- Python `set(w for w in s.split() if len(w) > 2)` as a deduplicated
word list. -/
def bigWordSet (s : String) : List String :=
  (((pySplitWsL s.data).map (fun w => (⟨w⟩ : String))).filter
    (fun w => 2 < w.length)).dedup

/-- Match tiers of `extract_and_compare.find_match` (this variant has no raw
exact-key tier). -/
inductive Tier where
  | normalizedExact
  | substring
  | wordOverlap
  deriving DecidableEq

/-- Embedding of `extract_and_compare.find_match` with the winning tier made
explicit: normalized equality, then substring containment guarded only by
the query's normalized length (`len(title_norm) > 5`), then word overlap of
the length-filtered word sets with bound
`len(common) >= min(2, len(title_words) * 0.7)` (`min` as in the source);
the float `0.7` is modelled as the exact rational 7/10. -/
def find_match (title : String) (library : List String) : Option (Tier × String) :=
  match library.find? (fun t => normalize_title t == normalize_title title) with
  | some t => some (Tier.normalizedExact, t)
  | none =>
    match library.find? (fun t =>
        (pyInfixB (normalize_title title).data (normalize_title t).data ||
          pyInfixB (normalize_title t).data (normalize_title title).data) &&
        decide (5 < (normalize_title title).length)) with
    | some t => some (Tier.substring, t)
    | none =>
      if (bigWordSet (normalize_title title)).isEmpty then none
      else
        match library.find? (fun t =>
            decide (0 < commonCount (bigWordSet (normalize_title title))
                (bigWordSet (normalize_title t))) &&
            (decide (2 ≤ commonCount (bigWordSet (normalize_title title))
                (bigWordSet (normalize_title t))) ||
              decide (7 * (bigWordSet (normalize_title title)).length ≤
                10 * commonCount (bigWordSet (normalize_title title))
                  (bigWordSet (normalize_title t))))) with
        | some t => some (Tier.wordOverlap, t)
        | none => none

end ExtractAndCompare

/-- C3, counterexample -- `find_match` of `extract_and_compare` accepts
"Hot" (normalized length 3) as a substring-tier match for the query
"Hot Rats Sessions", although the shorter normalized string has length at
most 5; the length guard checks only the query. -/
theorem c3_counterexample :
    ExtractAndCompare.find_match "Hot Rats Sessions" ["Hot"] =
        some (ExtractAndCompare.Tier.substring, "Hot") ∧
      (ExtractAndCompare.normalize_title "Hot").length ≤ 5 := by
  constructor
  · rfl
  · decide

/-- C3, amended -- the substring tier of `extract_and_compare.find_match`
accepts a candidate only when one normalized title is contained in the other
and the QUERY's normalized form is longer than 5 characters (the candidate's
length is not checked); in particular a query whose normalized form has
length at most 5 is never matched via the substring tier. -/
theorem c3_substring_tier_guard (q : String) (library : List String) :
    (∀ c, ExtractAndCompare.find_match q library =
        some (ExtractAndCompare.Tier.substring, c) →
      (pyInfixB (ExtractAndCompare.normalize_title q).data
          (ExtractAndCompare.normalize_title c).data = true ∨
        pyInfixB (ExtractAndCompare.normalize_title c).data
          (ExtractAndCompare.normalize_title q).data = true) ∧
        5 < (ExtractAndCompare.normalize_title q).length) ∧
    ((ExtractAndCompare.normalize_title q).length ≤ 5 →
      ∀ c, ExtractAndCompare.find_match q library ≠
        some (ExtractAndCompare.Tier.substring, c)) := by
  have hpart1 : ∀ c, ExtractAndCompare.find_match q library =
      some (ExtractAndCompare.Tier.substring, c) →
      (pyInfixB (ExtractAndCompare.normalize_title q).data
          (ExtractAndCompare.normalize_title c).data = true ∨
        pyInfixB (ExtractAndCompare.normalize_title c).data
          (ExtractAndCompare.normalize_title q).data = true) ∧
        5 < (ExtractAndCompare.normalize_title q).length := by
    intro c heq
    unfold ExtractAndCompare.find_match at heq
    split at heq
    · simp at heq
    · split at heq
      · rename_i t hfind
        have hpred := List.find?_some hfind
        simp only [Bool.and_eq_true, Bool.or_eq_true, decide_eq_true_eq] at hpred
        have hct : t = c := by
          simpa using heq
        rw [hct] at hpred
        exact ⟨hpred.1, hpred.2⟩
      · split at heq
        · simp at heq
        · split at heq
          · simp at heq
          · simp at heq
  refine ⟨hpart1, ?_⟩
  intro hlen c heq
  have h := hpart1 c heq
  omega

/-- C3, witness -- the amended guard evaluated at the concrete query
"Hot Rats Sessions" against the catalog containing "Hot". -/
theorem c3_substring_tier_guard_witness :
    (pyInfixB (ExtractAndCompare.normalize_title "Hot Rats Sessions").data
        (ExtractAndCompare.normalize_title "Hot").data = true ∨
      pyInfixB (ExtractAndCompare.normalize_title "Hot").data
        (ExtractAndCompare.normalize_title "Hot Rats Sessions").data = true) ∧
    5 < (ExtractAndCompare.normalize_title "Hot Rats Sessions").length :=
  (c3_substring_tier_guard "Hot Rats Sessions" ["Hot"]).1 "Hot" (by rfl)

namespace ZappaComparison

/-- Python `set(w for w in s.split() if len(w) > 2)` as a deduplicated
word list. -/
def bigWordSet (s : String) : List String :=
  (((pySplitWsL s.data).map (fun w => (⟨w⟩ : String))).filter
    (fun w => 2 < w.length)).dedup

/-- Python set inclusion `a <= b` on deduplicated word lists. -/
def subsetB (a b : List String) : Bool := a.all (fun w => b.contains w)

/-- Python `len(a | b)` on deduplicated word lists. -/
def unionCount (a b : List String) : Nat :=
  a.length + (b.filter (fun w => !a.contains w)).length

/-- Match tiers of `find_similar_in_library`, labelling the strategy behind
the returned entry. -/
inductive Tier where
  | exactKey
  | normalizedExact
  | substring
  | wordOverlap
  deriving DecidableEq

/-- Best-score loop of the word-overlap stage of `find_similar_in_library`:
Jaccard scores are exact rationals, the float literal `0.6` is modelled as
the rational 3/5. -/
def bestOverlap (tw : List String) :
    List (String × String) → ℚ → Option (String × String) → Option (String × String)
  | [], _, best => best
  | pr :: rest, bestScore, best =>
    if (bigWordSet (normalize_title pr.1)).isEmpty then bestOverlap tw rest bestScore best
    else
      if unionCount tw (bigWordSet (normalize_title pr.1)) = 0 then
        bestOverlap tw rest bestScore best
      else
        if bestScore < (commonCount tw (bigWordSet (normalize_title pr.1)) : ℚ) /
              (unionCount tw (bigWordSet (normalize_title pr.1)) : ℚ) ∧
            (3 : ℚ) / 5 ≤ (commonCount tw (bigWordSet (normalize_title pr.1)) : ℚ) /
              (unionCount tw (bigWordSet (normalize_title pr.1)) : ℚ) then
          bestOverlap tw rest
            ((commonCount tw (bigWordSet (normalize_title pr.1)) : ℚ) /
              (unionCount tw (bigWordSet (normalize_title pr.1)) : ℚ)) (some pr)
        else bestOverlap tw rest bestScore best

/-- Embedding of `zappa_comparison.find_similar_in_library` with the winning
tier made explicit: raw key lookup, then normalized equality, then substring
containment guarded by the query's normalized length and a word-subset
check, then the best Jaccard word overlap of score above 3/5. -/
def find_similar_in_library (target_title : String)
    (library : List (String × String)) : Option (Tier × String × String) :=
  match library.find? (fun pr => pr.1 == target_title) with
  | some pr => some (Tier.exactKey, target_title, pr.2)
  | none =>
    match library.find? (fun pr =>
        normalize_title pr.1 == normalize_title target_title) with
    | some pr => some (Tier.normalizedExact, pr.1, pr.2)
    | none =>
      match library.find? (fun pr =>
          ((pyInfixB (normalize_title target_title).data (normalize_title pr.1).data ||
              pyInfixB (normalize_title pr.1).data (normalize_title target_title).data) &&
            decide (5 < (normalize_title target_title).length)) &&
          (!(bigWordSet (normalize_title target_title)).isEmpty &&
            (!(bigWordSet (normalize_title pr.1)).isEmpty &&
              (subsetB (bigWordSet (normalize_title target_title))
                  (bigWordSet (normalize_title pr.1)) ||
                subsetB (bigWordSet (normalize_title pr.1))
                  (bigWordSet (normalize_title target_title)))))) with
      | some pr => some (Tier.substring, pr.1, pr.2)
      | none =>
        if (bigWordSet (normalize_title target_title)).isEmpty then none
        else
          match bestOverlap (bigWordSet (normalize_title target_title)) library 0 none with
          | some pr => some (Tier.wordOverlap, pr.1, pr.2)
          | none => none

end ZappaComparison

/-- C4 -- whenever the query string is verbatim equal to a catalog key, both
matchers return that key through the exact-key tier, regardless of the other
catalog entries. -/
theorem c4_exact_key_tier_wins (q : String) (pzCatalog : List String)
    (zcCatalog : List (String × String)) :
    (q ∈ pzCatalog → ParseZappaList.find_match q pzCatalog =
      some (ParseZappaList.Tier.exactKey, q)) ∧
    ∀ pr, zcCatalog.find? (fun e => e.1 == q) = some pr →
      ZappaComparison.find_similar_in_library q zcCatalog =
        some (ZappaComparison.Tier.exactKey, q, pr.2) := by
  constructor
  · intro hq
    unfold ParseZappaList.find_match
    rw [if_pos (show pzCatalog.contains q = true from List.elem_iff.mpr hq)]
  · intro pr hpr
    unfold ZappaComparison.find_similar_in_library
    rw [hpr]

/-- C4, witness -- both exact-tier conclusions at a concrete query and
concrete catalogs that also hold near-duplicate keys. -/
theorem c4_exact_key_tier_wins_witness :
    ParseZappaList.find_match "Hot Rats" ["The Hot Rats Sessions", "Hot Rats"] =
        some (ParseZappaList.Tier.exactKey, "Hot Rats") ∧
      ZappaComparison.find_similar_in_library "Hot Rats"
          [("Hot Rats", "#9 Hot Rats (October 1969)")] =
        some (ZappaComparison.Tier.exactKey, "Hot Rats", "#9 Hot Rats (October 1969)") := by
  constructor
  · exact (c4_exact_key_tier_wins "Hot Rats" ["The Hot Rats Sessions", "Hot Rats"] []).1
      (by simp)
  · exact (c4_exact_key_tier_wins "Hot Rats" []
      [("Hot Rats", "#9 Hot Rats (October 1969)")]).2
      ("Hot Rats", "#9 Hot Rats (October 1969)") (by rfl)

/-- C10 -- the word-overlap tier of `parse_zappa_list.find_match` accepts a
candidate only when the query and candidate share at least
`max(2, 0.7 * number of query words)` normalized words (modelled exactly:
at least 2 shared words and `10*shared ≥ 7*query words`); in particular a
query whose normalized form is a single word is never matched via that
tier. -/
theorem c10_word_overlap_floor (q : String) (catalog : List String) :
    (∀ c, ParseZappaList.find_match q catalog =
        some (ParseZappaList.Tier.wordOverlap, c) →
      2 ≤ commonCount (ParseZappaList.wordSet (ParseZappaList.normalize q))
          (ParseZappaList.wordSet (ParseZappaList.normalize c)) ∧
        7 * (ParseZappaList.wordSet (ParseZappaList.normalize q)).length ≤
          10 * commonCount (ParseZappaList.wordSet (ParseZappaList.normalize q))
            (ParseZappaList.wordSet (ParseZappaList.normalize c))) ∧
    ((ParseZappaList.wordSet (ParseZappaList.normalize q)).length = 1 →
      ∀ c, ParseZappaList.find_match q catalog ≠
        some (ParseZappaList.Tier.wordOverlap, c)) := by
  have hpart1 : ∀ c, ParseZappaList.find_match q catalog =
      some (ParseZappaList.Tier.wordOverlap, c) →
      2 ≤ commonCount (ParseZappaList.wordSet (ParseZappaList.normalize q))
          (ParseZappaList.wordSet (ParseZappaList.normalize c)) ∧
        7 * (ParseZappaList.wordSet (ParseZappaList.normalize q)).length ≤
          10 * commonCount (ParseZappaList.wordSet (ParseZappaList.normalize q))
            (ParseZappaList.wordSet (ParseZappaList.normalize c)) := by
    intro c heq
    unfold ParseZappaList.find_match at heq
    split at heq
    · simp at heq
    · split at heq
      · simp at heq
      · split at heq
        · simp at heq
        · split at heq
          · simp at heq
          · split at heq
            · rename_i t hfind
              have hpred := List.find?_some hfind
              simp only [Bool.and_eq_true, decide_eq_true_eq] at hpred
              have hct : t = c := by simpa using heq
              rw [hct] at hpred
              exact ⟨hpred.2.1, hpred.2.2⟩
            · simp at heq
  refine ⟨hpart1, ?_⟩
  intro hone c heq
  have h := hpart1 c heq
  have hle := commonCount_le_length (ParseZappaList.wordSet (ParseZappaList.normalize q))
    (ParseZappaList.wordSet (ParseZappaList.normalize c))
  omega

/-- C10, witness -- the single-word query "Hot" (one normalized word) is not
word-overlap matched against a catalog holding "Hot Rats" and
"The Hot Rocks". -/
theorem c10_word_overlap_floor_witness :
    (ParseZappaList.wordSet (ParseZappaList.normalize "Hot")).length = 1 ∧
      ParseZappaList.find_match "Hot" ["Hot Rats", "The Hot Rocks"] ≠
        some (ParseZappaList.Tier.wordOverlap, "Hot Rats") :=
  ⟨by rfl, (c10_word_overlap_floor "Hot" ["Hot Rats", "The Hot Rocks"]).2 (by rfl) "Hot Rats"⟩

namespace ParseZappaList

/-- Noise vocabulary of `extract_releases`; a line is skipped when any entry
occurs case-insensitively INSIDE the extracted title. -/
def skipPatterns : List String :=
  ["↑", "Toggle", "Size", "Snatches", "Seeders", "Leechers",
   "Albums", "EPs", "Soundtracks", "Live albums", "Compilations",
   "Anthologies", "Singles", "Bootlegs"]

/-- Python `any(pattern.lower() in title.lower() for pattern in skip_patterns)`. -/
def noiseContains (title : String) : Bool :=
  skipPatterns.any (fun p => pyInfixB (pyLowerL p.data) (pyLowerL title.data))

/-- Release record built by `extract_releases`. -/
structure Release where
  year : String
  title : String
  full : String
  deriving DecidableEq

/-- Loop body of `extract_releases` for one line: the parsed record when the
line matches the year-title shape and passes the noise filter and the
length check. -/
def lineRecord (l : List Char) : Option Release :=
  match parseLine (pyStripL l) with
  | none => none
  | some (y, t) =>
    if noiseContains t then none
    else if t ≠ "" ∧ 2 < t.length then some ⟨y, t, y ++ " – " ++ t⟩
    else none

/-- Fold of the extraction loop with its `seen` set. -/
def extractGo : List (List Char) → List String → List Release
  | [], _ => []
  | l :: rest, seen =>
    match lineRecord l with
    | none => extractGo rest seen
    | some r =>
      if seen.contains r.full then extractGo rest seen
      else r :: extractGo rest (r.full :: seen)

/-- Embedding of `parse_zappa_list.extract_releases`. -/
def extract_releases (text : String) : List Release :=
  extractGo (splitNl text.data) []

end ParseZappaList

/-- The omission rule exactly as claim C6 words it: a matching line is
dropped when its extracted title EQUALS some noise entry case-insensitively,
or has length at most 2 after trimming.  Written from the spec, to be
compared with the code's containment-based rule. -/
def claimOmit (title : String) : Bool :=
  ParseZappaList.skipPatterns.any (fun p => pyLowerL p.data == pyLowerL title.data) ||
    decide (title.length ≤ 2)

/-- C6, counterexample -- the line "1999 – The Toggle Show" matches the
year-title shape, its title equals no noise entry (so the claim keeps it)
and is 15 characters long, yet `extract_releases` returns nothing: the code
skips any title merely CONTAINING a noise entry ("Toggle"). -/
theorem c6_counterexample :
    parseLine (pyStripL "1999 – The Toggle Show".data) =
        some ("1999", "The Toggle Show") ∧
      claimOmit "The Toggle Show" = false ∧
      ParseZappaList.extract_releases "1999 – The Toggle Show" = [] := by
  refine ⟨by rfl, by rfl, by rfl⟩

/-- C6, amended -- for a single input line matching the year-title shape,
`extract_releases` omits the record exactly when the extracted title
case-insensitively CONTAINS some noise-vocabulary entry or has length at
most 2; otherwise the single parsed record is returned. -/
theorem c6_line_filter (s : String) (y t : String) (hnl : '\n' ∉ s.data)
    (hp : parseLine (pyStripL s.data) = some (y, t)) :
    (ParseZappaList.extract_releases s = [] ↔
      ParseZappaList.noiseContains t = true ∨ t.length ≤ 2) ∧
    (¬ (ParseZappaList.noiseContains t = true ∨ t.length ≤ 2) →
      ParseZappaList.extract_releases s =
        [⟨y, t, y ++ " – " ++ t⟩]) := by
  have hext : ParseZappaList.extract_releases s =
      match ParseZappaList.lineRecord s.data with
      | none => []
      | some r => [r] := by
    unfold ParseZappaList.extract_releases
    rw [splitNl_eq_single hnl]
    cases hl : ParseZappaList.lineRecord s.data with
    | none => simp [ParseZappaList.extractGo, hl]
    | some r => simp [ParseZappaList.extractGo, hl]
  have hrec : ParseZappaList.lineRecord s.data =
      (if ParseZappaList.noiseContains t then none
       else if t ≠ "" ∧ 2 < t.length then
        some ⟨y, t, y ++ " – " ++ t⟩ else none) := by
    unfold ParseZappaList.lineRecord
    rw [hp]
  by_cases hn : ParseZappaList.noiseContains t = true
  · rw [hrec, if_pos hn] at hext
    constructor
    · rw [hext]
      simp [hn]
    · intro hcon
      exact absurd (Or.inl hn) hcon
  · by_cases hlen : 2 < t.length
    · have htne : t ≠ "" := by
        intro ht
        rw [ht] at hlen
        simp at hlen
      rw [hrec, if_neg hn, if_pos ⟨htne, hlen⟩] at hext
      constructor
      · rw [hext]
        constructor
        · intro habs
          exact absurd habs (by simp)
        · intro hor
          rcases hor with h | h
          · exact absurd h hn
          · omega
      · intro _
        exact hext
    · rw [hrec, if_neg hn, if_neg (by intro hcon; exact hlen hcon.2)] at hext
      constructor
      · rw [hext]
        simp only [true_iff]
        right
        omega
      · intro hcon
        exact absurd (Or.inr (by omega)) hcon

/-- C6, witness -- the amended filter evaluated on the kept line
"1966 – Freak Out!" (no noise containment, length above 2). -/
theorem c6_line_filter_witness :
    ParseZappaList.extract_releases "1966 – Freak Out!" =
      [⟨"1966", "Freak Out!", "1966 – Freak Out!"⟩] :=
  (c6_line_filter "1966 – Freak Out!" "1966" "Freak Out!" (by decide) (by rfl)).2
    (by decide)

namespace FindMissingZappa

/-- Noise titles of `extract_releases_from_text`; this variant skips a line
only when the (whitespace-collapsed) title EQUALS one of them. -/
def noiseTitles : List String :=
  ["↑", "Toggle", "Size", "Snatches", "Seeders", "Leechers"]

/-- Release record built by `extract_releases_from_text`. -/
structure Release where
  year : String
  title : String
  full_name : String
  deriving DecidableEq

/-- Loop body of `extract_releases_from_text` for one line: parse the
stripped line, collapse whitespace inside the title, then keep the record
when the title is non-empty, longer than 2 characters and not a noise
title. -/
def lineRecord (l : List Char) : Option Release :=
  match parseLine (pyStripL l) with
  | none => none
  | some (y, t) =>
    if (⟨collapseWs t.data⟩ : String) ≠ "" ∧ 2 < (⟨collapseWs t.data⟩ : String).length ∧
        ¬ noiseTitles.contains ⟨collapseWs t.data⟩ then
      some ⟨y, ⟨collapseWs t.data⟩,
        y ++ " – " ++ (⟨collapseWs t.data⟩ : String)⟩
    else none

/-- Keys (`full_name`) of the accepted lines in line order, before the
`seen`-set deduplication. -/
def acceptedKeys (text : String) : List String :=
  (splitNl text.data).filterMap (fun l => (lineRecord l).map (fun r => r.full_name))

/-- Fold of the extraction loop with its `seen` set. -/
def extractGo : List (List Char) → List String → List Release
  | [], _ => []
  | l :: rest, seen =>
    match lineRecord l with
    | none => extractGo rest seen
    | some r =>
      if seen.contains r.full_name then extractGo rest seen
      else r :: extractGo rest (r.full_name :: seen)

/-- Embedding of `find_missing_zappa.extract_releases_from_text`. -/
def extract_releases_from_text (text : String) : List Release :=
  extractGo (splitNl text.data) []

theorem extractGo_keys (ls : List (List Char)) (seen : List String) :
    (extractGo ls seen).map (fun r => r.full_name) =
      firstDedup ((ls.filterMap (fun l => (lineRecord l).map
        (fun r => r.full_name))).filter (fun k => !seen.contains k)) := by
  induction ls generalizing seen with
  | nil => rfl
  | cons l rest ih =>
    cases hl : lineRecord l with
    | none =>
      rw [List.filterMap_cons]
      simp only [extractGo, hl]
      exact ih seen
    | some r =>
      rw [List.filterMap_cons]
      simp only [extractGo, hl, Option.map_some']
      by_cases hseen : seen.contains r.full_name = true
      · rw [if_pos hseen,
          List.filter_cons_of_neg (by simp [List.mem_of_elem_eq_true hseen])]
        exact ih seen
      · rw [if_neg hseen,
          List.filter_cons_of_pos
            (by simp; exact fun hmem => hseen (List.elem_eq_true_of_mem hmem)),
          firstDedup, List.map_cons]
        congr 1
        rw [ih (r.full_name :: seen), ← firstDedup_filter, List.filter_filter]
        congr 1
        apply List.filter_congr
        intro x _
        show (!(r.full_name :: seen).contains x) = (x != r.full_name && !seen.contains x)
        rw [List.contains_cons, Bool.not_or]
        rfl

end FindMissingZappa

/-- C7, amended -- `extract_releases_from_text` de-duplicates by exact
`full_name` (sourceKey) string equality and keeps each record at the
position of its first accepted occurrence, in first-occurrence order: the
keys of its output are exactly the first-occurrence deduplication of the
accepted line keys, and are pairwise distinct.  Deduplication compares raw
strings, so two keys differing only in letter case both survive.  The
second cited extractor, `zappa_comparison.extract_releases_from_list`,
instead returns the accepted keys sorted, not in first-occurrence order. -/
theorem c7_extract_first_occurrence (text : String) :
    (FindMissingZappa.extract_releases_from_text text).map (fun r => r.full_name) =
        firstDedup (FindMissingZappa.acceptedKeys text) ∧
      ((FindMissingZappa.extract_releases_from_text text).map
        (fun r => r.full_name)).Nodup := by
  have h := FindMissingZappa.extractGo_keys (splitNl text.data) []
  have hfilter : ∀ ks : List String,
      ks.filter (fun k => !([] : List String).contains k) = ks := by
    intro ks
    apply List.filter_eq_self.mpr
    intro a _
    rfl
  rw [hfilter] at h
  have h2 : (FindMissingZappa.extract_releases_from_text text).map
      (fun r => r.full_name) = firstDedup (FindMissingZappa.acceptedKeys text) := h
  constructor
  · exact h2
  · rw [h2]
    exact firstDedup_nodup _

namespace ZappaComparison

/-- Noise vocabulary of `extract_releases_from_list` (containment check). -/
def skipKeywords : List String :=
  ["↑", "Toggle", "Size", "Snatches", "Seeders", "Leechers",
   "Albums", "EPs", "Soundtracks", "Anthologies", "Compilations",
   "Live albums", "Singles", "Bootlegs", "Interviews", "Mixtapes",
   "DJ Mixes", "Concert recordings", "Unknowns", "Produced By",
   "Compositions", "Guest Appearances", "Remixes"]

/-- Accepted key of one line of `extract_releases_from_list`. -/
def lineKey (l : List Char) : Option String :=
  match parseLine (pyStripL l) with
  | none => none
  | some (y, t) =>
    if skipKeywords.any (fun p => pyInfixB (pyLowerL p.data) (pyLowerL t.data)) then
      none
    else if t ≠ "" ∧ 2 < t.length then some (y ++ " – " ++ t)
    else none

/-- Code-point lexicographic comparison of strings: Python `s <= t`. -/
def charListLe : List Char → List Char → Bool
  | [], _ => true
  | _ :: _, [] => false
  | a :: as, b :: bs => if a = b then charListLe as bs else decide (a < b)

/-- Insertion step of the sort that models Python's `sorted`. -/
def insertSorted (s : String) : List String → List String
  | [] => [s]
  | t :: ts => if charListLe s.data t.data then s :: t :: ts else t :: insertSorted s ts

/-- Python `sorted(strings)` by insertion sort over code-point order. -/
def sortStrings : List String → List String
  | [] => []
  | s :: ss => insertSorted s (sortStrings ss)

/-- Keys of the accepted lines in first-occurrence (line) order, for
comparison with the sorted output. -/
def acceptedKeysList (text : String) : List String :=
  (splitNl text.data).filterMap lineKey

/-- Embedding of `zappa_comparison.extract_releases_from_list`: the accepted
keys are collected into a set (`releases.add`) and returned with
`sorted(releases)` — the distinct keys in code-point order. -/
def extract_releases_from_list (text : String) : List String :=
  sortStrings (((splitNl text.data).filterMap lineKey).dedup)

end ZappaComparison

/-- C7, counterexample -- on the two-line listing "1999 – BBB",
"1999 – AAA", the accepted keys in first-occurrence order are
["1999 – BBB", "1999 – AAA"] (which is what first-occurrence deduplication
keeps), but `extract_releases_from_list` returns them sorted, with
"1999 – BBB" no longer at the position of its first accepted occurrence. -/
theorem c7_counterexample :
    ZappaComparison.acceptedKeysList "1999 – BBB\n1999 – AAA" =
        ["1999 – BBB", "1999 – AAA"] ∧
      firstDedup ["1999 – BBB", "1999 – AAA"] = ["1999 – BBB", "1999 – AAA"] ∧
      ZappaComparison.extract_releases_from_list "1999 – BBB\n1999 – AAA" =
        ["1999 – AAA", "1999 – BBB"] := by
  refine ⟨by rfl, by rfl, by decide⟩

end ZappaVault
